import Mathlib

/-!
Verification of the latitude-tiling and tiled-append driver of
`scripts/arc/run_atlite_to_zarr.py` (green-condor).

The latitude values of the cutout grid are modelled as a `List ℚ`.
`build_latitude_slices` below is a line-by-line shallow embedding of the
Python function of the same name; the fallible Python function (it can
raise `ValueError`) becomes an `Except String` value.  The driver `main`
is embedded as `runMain`, a pure function over an abstract destination
store (`Option (List D)`: `none` = the destination path does not exist,
`some ds` = a store holding the per-tile datasets `ds` appended in order).
-/

set_option autoImplicit false

deriving instance DecidableEq for Except

namespace GreenCondor

/-- Python's `round` (banker's rounding, half to even) on a rational,
as used by `int(round(step_deg / cell_height))` in the source. -/
def pyRound (q : ℚ) : ℤ :=
  let f := ⌊q⌋
  if q - f < 1/2 then f
  else if (1 : ℚ)/2 < q - f then f + 1
  else if f % 2 = 0 then f else f + 1

/-- One step of the window walk `for start in range(0, y_values.size, k)`
of the source: the fuel argument bounds the number of iterations (the
source only enters this walk with `k > 0`, for which `ys.length` fuel
is always enough). -/
def windowChunksF : Nat → List ℚ → Nat → List (List ℚ)
  | 0, _, _ => []
  | _, [], _ => []
  | fuel + 1, y :: ys, k => (y :: ys).take k :: windowChunksF fuel ((y :: ys).drop k) k

/-- The windows `y_values[start : start + k]` for `start = 0, k, 2k, ...`
walked by the explicit-row-count branch of `build_latitude_slices`. -/
def windowChunks (ys : List ℚ) (k : Nat) : List (List ℚ) :=
  windowChunksF ys.length ys k

/-- The chunk sizes produced by `np.array_split(y_values, tile_count)`:
`n % t` chunks of size `n / t + 1` followed by chunks of size `n / t`. -/
def arraySplitSizes (n t : Nat) : List Nat :=
  (List.range t).map fun i => n / t + if i < n % t then 1 else 0

/-- Split a list into consecutive chunks of the given sizes. -/
def splitBySizes : List ℚ → List Nat → List (List ℚ)
  | _, [] => []
  | ys, s :: rest => ys.take s :: splitBySizes (ys.drop s) rest

/-- The non-empty chunks of `np.array_split(y_values, tile_count)` kept by
the fixed-tile-count branch of `build_latitude_slices` (empty chunks are
skipped by the `continue`). -/
def fixedCountChunks (ys : List ℚ) (t : Nat) : List (List ℚ) :=
  (splitBySizes ys (arraySplitSizes ys.length t)).filter fun c => !c.isEmpty

/-- The `(float(chunk[0]), float(chunk[-1]))` bound pair of one chunk. -/
def boundsOf (c : List ℚ) : ℚ × ℚ :=
  (c.headI, c.getLastI)

/-- The row count inferred by the degrees-per-tile branch:
`max(1, int(round(step_deg / cell_height)))`. -/
def inferredRows (step_deg cell_height : ℚ) : Nat :=
  max 1 (pyRound (step_deg / cell_height)).toNat

/-- The `effective_rows` computation of `build_latitude_slices` (source
lines 168-178): an explicit positive `rows_per_tile` is the starting
value, and a present `step_deg` then overrides it along every path. -/
def effectiveRowsOf (y_values : List ℚ) (rows_per_tile : Int)
    (step_deg : Option ℚ) : Except String Nat :=
  match step_deg with
  | none => .ok (if 0 < rows_per_tile then rows_per_tile.toNat else 0)
  | some s =>
    if s ≤ 0 then .error "lat-step-deg must be > 0"
    else if y_values.length = 1 then .ok 1
    else
      let cell_height : ℚ := |y_values.getD 1 0 - y_values.getD 0 0|
      if cell_height = 0 then
        .error "Cannot infer latitude resolution from cutout coordinates"
      else .ok (inferredRows s cell_height)

/-- Shallow embedding of `build_latitude_slices` (source lines 158-196).
`tile_count` is `--lat-tiles`, `rows_per_tile` is `--lat-rows-per-tile`,
`step_deg` is `--lat-step-deg` (`none` when the flag is absent). -/
def build_latitude_slices (y_values : List ℚ) (tile_count : Int)
    (rows_per_tile : Int) (step_deg : Option ℚ) :
    Except String (List (ℚ × ℚ)) :=
  if y_values.length = 0 then .ok []
  else
    match effectiveRowsOf y_values rows_per_tile step_deg with
    | .error m => .error m
    | .ok effective_rows =>
      if 0 < effective_rows then
        .ok ((windowChunks y_values effective_rows).map boundsOf)
      else if tile_count < 1 then .error "lat-tiles must be >= 1"
      else .ok ((fixedCountChunks y_values tile_count.toNat).map boundsOf)

/-! ## Driver model -/

/-- The command-line options of `main` that influence the destination
store (source `parse_args`). -/
structure Args where
  overwrite : Bool
  lat_tiles : Int
  lat_rows_per_tile : Int
  lat_step_deg : Option ℚ
  tile_start_index : Int
  tile_count : Int
deriving DecidableEq, Repr

/-- The failures `main` can raise that reach the top-level handler. -/
inductive RunError where
  | fileExistsError
  | valueError (msg : String)
  | startIndexError (idx : Int) (total : Nat)
  | transformError (msg : String)
  | writeError (msg : String)
deriving DecidableEq, Repr

/-- One tile's compute-and-append step, per-tile failure modes included:
`tf` is the transform (`compute_capacity_factors` + `assemble_dataset`)
producing the tile dataset, `aerr` models the append `dataset.to_zarr`
raising.  The append is modelled as atomic: on failure the store is
unchanged (the store format's own atomicity is an external dependency). -/
def tileStep {D : Type} (tf : ℚ × ℚ → Except String D)
    (aerr : ℚ × ℚ → D → Option String) (t : ℚ × ℚ) : Except RunError D :=
  match tf t with
  | .error m => .error (.transformError m)
  | .ok d =>
    match aerr t d with
    | some m => .error (.writeError m)
    | none => .ok d

/-- Run the per-tile step over a list of tiles, stopping at the first
failure (used to phrase hypotheses about a failing run). -/
def tileSteps {D : Type} (f : ℚ × ℚ → Except RunError D) :
    List (ℚ × ℚ) → Except RunError (List D)
  | [] => .ok []
  | t :: rest =>
    match f t with
    | .error e => .error e
    | .ok d =>
      match tileSteps f rest with
      | .error e => .error e
      | .ok ds => .ok (d :: ds)

/-- The per-tile loop of `main` (source lines 251-285): `local_idx` counts
from 1 within the current run's selection; the first tile of the run uses
zarr mode `"w"` (create/overwrite) and every later tile mode `"a"`
(append along `y`).  Returns the destination state and the outcome
(`none` = the loop finished, `some e` = the run aborted with `e`). -/
def writeTiles {D : Type} (f : ℚ × ℚ → Except RunError D) :
    List (ℚ × ℚ) → Nat → Option (List D) → Option (List D) × Option RunError
  | [], _, store => (store, none)
  | t :: rest, localIdx, store =>
    match f t with
    | .error e => (store, some e)
    | .ok d =>
      writeTiles f rest (localIdx + 1)
        (if localIdx = 1 then some [d] else some (store.getD [] ++ [d]))

/-- The run selection `lat_slices[start_idx:][:tile_count]` of `main`
(source lines 239-241). -/
def selectionOf (slices : List (ℚ × ℚ)) (a : Args) : List (ℚ × ℚ) :=
  let afterStart := slices.drop a.tile_start_index.toNat
  if 0 < a.tile_count then afterStart.take a.tile_count.toNat else afterStart

/-- The tile-selection and write phase of `main` (source lines 230-287):
the empty-partition check, start-index validation, run selection, the
empty-selection check, and the per-tile loop.  At this point the
destination path no longer exists (it was absent, or was deleted by the
overwrite policy), so the loop starts from an absent store. -/
def runTiles {D : Type} (tf : ℚ × ℚ → Except String D)
    (aerr : ℚ × ℚ → D → Option String) (lat_slices : List (ℚ × ℚ))
    (a : Args) : Option (List D) × Option RunError :=
  if lat_slices.length = 0 then (none, none)
  else if a.tile_start_index < 0 ∨
      (lat_slices.length : Int) ≤ a.tile_start_index then
    (none, some (.startIndexError a.tile_start_index lat_slices.length))
  else
    let selection := selectionOf lat_slices a
    if selection.length = 0 then (none, none)
    else writeTiles (tileStep tf aerr) selection 1 none

/-- Shallow embedding of the store-relevant control flow of `main`
(source lines 199-287).  `store0` is the destination state before the
invocation.  Order is as in the source: destination existence policy
(lines 220-227) first — an existing destination is an error without the
overwrite flag and is deleted with it — then tiling and `runTiles`.
Result: destination state after the run and the outcome. -/
def runMain {D : Type} (tf : ℚ × ℚ → Except String D)
    (aerr : ℚ × ℚ → D → Option String) (y_values : List ℚ) (a : Args)
    (store0 : Option (List D)) : Option (List D) × Option RunError :=
  if store0.isSome = true ∧ a.overwrite = false then
    (store0, some .fileExistsError)
  else
    match build_latitude_slices y_values a.lat_tiles a.lat_rows_per_tile
        a.lat_step_deg with
    | .error m => (none, some (.valueError m))
    | .ok lat_slices => runTiles tf aerr lat_slices a

/-! ## Window-chunk lemmas -/

lemma windowChunksF_nil (fuel k : Nat) : windowChunksF fuel [] k = [] := by
  cases fuel <;> rfl

lemma windowChunksF_join (k : Nat) (hk : 0 < k) :
    ∀ (fuel : Nat) (ys : List ℚ), ys.length ≤ fuel →
      (windowChunksF fuel ys k).flatten = ys := by
  intro fuel
  induction fuel with
  | zero =>
    intro ys h
    obtain rfl : ys = [] := List.length_eq_zero.mp (Nat.le_zero.mp h)
    rfl
  | succ n ih =>
    intro ys h
    match ys with
    | [] => rfl
    | y :: ys0 =>
      have hdrop : ((y :: ys0).drop k).length ≤ n := by
        rw [List.length_drop]
        simp only [List.length_cons] at h ⊢
        omega
      simp only [windowChunksF, List.flatten_cons]
      rw [ih _ hdrop, List.take_append_drop]

lemma windowChunks_join (ys : List ℚ) (k : Nat) (hk : 0 < k) :
    (windowChunks ys k).flatten = ys :=
  windowChunksF_join k hk ys.length ys le_rfl

lemma windowChunksF_ne_nil (k : Nat) (hk : 0 < k) :
    ∀ (fuel : Nat) (ys c : List ℚ), c ∈ windowChunksF fuel ys k → c ≠ [] := by
  intro fuel
  induction fuel with
  | zero => intro ys c hc; simp [windowChunksF] at hc
  | succ n ih =>
    intro ys c hc
    match ys with
    | [] => simp [windowChunksF] at hc
    | y :: ys0 =>
      simp only [windowChunksF, List.mem_cons] at hc
      rcases hc with h | h
      · subst h
        obtain ⟨k0, rfl⟩ : ∃ k0, k = k0 + 1 := ⟨k - 1, by omega⟩
        simp [List.take_succ_cons]
      · exact ih _ c h

lemma windowChunks_ne_nil (ys c : List ℚ) (k : Nat) (hk : 0 < k)
    (hc : c ∈ windowChunks ys k) : c ≠ [] :=
  windowChunksF_ne_nil k hk ys.length ys c hc

lemma windowChunksF_length_getD (k : Nat) (hk : 0 < k) :
    ∀ (fuel : Nat) (ys : List ℚ) (i : Nat),
      i + 1 < (windowChunksF fuel ys k).length →
      ((windowChunksF fuel ys k).getD i []).length = k := by
  intro fuel
  induction fuel with
  | zero => intro ys i hi; simp [windowChunksF] at hi
  | succ n ih =>
    intro ys i hi
    match ys with
    | [] => simp [windowChunksF] at hi
    | y :: ys0 =>
      simp only [windowChunksF, List.length_cons] at hi
      match i with
      | 0 =>
        have hrest : windowChunksF n ((y :: ys0).drop k) k ≠ [] := by
          intro hnil
          rw [hnil] at hi
          simp at hi
        have hdrop : (y :: ys0).drop k ≠ [] := by
          intro hnil
          rw [hnil, windowChunksF_nil] at hrest
          exact hrest rfl
        have hlen : k < (y :: ys0).length := by
          by_contra hle
          exact hdrop (List.drop_eq_nil_of_le (by omega))
        simp only [windowChunksF, List.getD_cons_zero, List.length_take]
        omega
      | i' + 1 =>
        simp only [windowChunksF, List.getD_cons_succ]
        exact ih _ i' (by omega)

lemma windowChunks_length_getD (ys : List ℚ) (k i : Nat) (hk : 0 < k)
    (hi : i + 1 < (windowChunks ys k).length) :
    ((windowChunks ys k).getD i []).length = k :=
  windowChunksF_length_getD k hk ys.length ys i hi

lemma windowChunks_sum_length (ys : List ℚ) (k : Nat) (hk : 0 < k) :
    ((windowChunks ys k).map List.length).sum = ys.length := by
  rw [← List.length_flatten, windowChunks_join ys k hk]

lemma windowChunks_singleton (a : ℚ) (k : Nat) (hk : 0 < k) :
    windowChunks [a] k = [[a]] := by
  obtain ⟨k0, rfl⟩ : ∃ k0, k = k0 + 1 := ⟨k - 1, by omega⟩
  simp [windowChunks, windowChunksF]

/-! ## Unfolding lemmas for `build_latitude_slices` -/

lemma build_nil (tc r : Int) (sd : Option ℚ) :
    build_latitude_slices [] tc r sd = .ok [] := rfl

lemma build_rows_pos (y : List ℚ) (tc k : Int) (hk : 0 < k) :
    build_latitude_slices y tc k none =
      .ok ((windowChunks y k.toNat).map boundsOf) := by
  have hk' : 0 < k.toNat := by omega
  by_cases hy : y.length = 0
  · obtain rfl : y = [] := List.length_eq_zero.mp hy
    simp [build_nil, windowChunks, windowChunksF_nil]
  · simp [build_latitude_slices, effectiveRowsOf, hy, hk, hk']

lemma splitBySizes_nil_left : ∀ sizes : List Nat,
    ∀ c ∈ splitBySizes [] sizes, c = [] := by
  intro sizes
  induction sizes with
  | nil => intro c hc; simp [splitBySizes] at hc
  | cons s rest ih =>
    intro c hc
    simp only [splitBySizes, List.take_nil, List.drop_nil, List.mem_cons] at hc
    rcases hc with rfl | h
    · rfl
    · exact ih c h

lemma fixedCountChunks_nil (t : Nat) : fixedCountChunks [] t = [] := by
  unfold fixedCountChunks
  rw [List.filter_eq_nil_iff]
  intro c hc
  have := splitBySizes_nil_left _ c hc
  subst this
  simp

lemma build_fixed (y : List ℚ) (tc r : Int) (hr : r ≤ 0) (htc : 1 ≤ tc) :
    build_latitude_slices y tc r none =
      .ok ((fixedCountChunks y tc.toNat).map boundsOf) := by
  have h1 : ¬ 0 < r := by omega
  have h2 : ¬ tc < 1 := by omega
  by_cases hy : y.length = 0
  · obtain rfl : y = [] := List.length_eq_zero.mp hy
    simp [build_nil, fixedCountChunks_nil]
  · simp [build_latitude_slices, effectiveRowsOf, hy, h1, h2]

lemma build_fixed_err (y : List ℚ) (tc r : Int) (hy : y ≠ [])
    (hr : r ≤ 0) (htc : tc < 1) :
    build_latitude_slices y tc r none = .error "lat-tiles must be >= 1" := by
  have h1 : ¬ 0 < r := by omega
  have hy' : ¬ y.length = 0 := by
    intro h
    exact hy (List.length_eq_zero.mp h)
  simp [build_latitude_slices, effectiveRowsOf, hy', h1, htc]

lemma build_step_ignores_rows (y : List ℚ) (tc r1 r2 : Int) (s : ℚ) :
    build_latitude_slices y tc r1 (some s) =
      build_latitude_slices y tc r2 (some s) := by
  simp only [build_latitude_slices, effectiveRowsOf]

lemma build_step_nonpos (y : List ℚ) (tc r : Int) (s : ℚ)
    (hy : y ≠ []) (hs : s ≤ 0) :
    build_latitude_slices y tc r (some s) =
      .error "lat-step-deg must be > 0" := by
  have hy' : ¬ y.length = 0 := by
    intro h
    exact hy (List.length_eq_zero.mp h)
  simp [build_latitude_slices, effectiveRowsOf, hy', hs]

lemma build_step_single (a : ℚ) (tc r : Int) (s : ℚ) (hs : 0 < s) :
    build_latitude_slices [a] tc r (some s) = .ok [(a, a)] := by
  have hs' : ¬ s ≤ 0 := not_le.mpr hs
  simp only [build_latitude_slices, effectiveRowsOf, List.length_cons,
    List.length_nil, if_neg hs']
  rfl

lemma one_le_inferredRows (s h : ℚ) : 1 ≤ inferredRows s h :=
  le_max_left 1 _

lemma build_step_pos (y : List ℚ) (tc r : Int) (s : ℚ) (hs : 0 < s)
    (hy : 2 ≤ y.length) (hch : |y.getD 1 0 - y.getD 0 0| ≠ 0) :
    build_latitude_slices y tc r (some s) =
      .ok ((windowChunks y
        (inferredRows s |y.getD 1 0 - y.getD 0 0|)).map boundsOf) := by
  have h0 : ¬ y.length = 0 := by omega
  have h1 : ¬ s ≤ 0 := not_le.mpr hs
  have h2 : ¬ y.length = 1 := by omega
  have h3 : 0 < inferredRows s |y.getD 1 0 - y.getD 0 0| :=
    one_le_inferredRows s _
  simp only [build_latitude_slices, effectiveRowsOf, if_neg h0, if_neg h1,
    if_neg h2, if_neg hch, if_pos h3]

/-! ## `np.array_split` lemmas -/

lemma range_sum_ite (q m : Nat) : ∀ t : Nat,
    (((List.range t).map fun i => q + if i < m then 1 else 0)).sum =
      t * q + min m t := by
  intro t
  induction t with
  | zero => simp
  | succ n ih =>
    rw [List.range_succ, List.map_append, List.sum_append, ih]
    by_cases h : n < m
    · rw [List.map_singleton, List.sum_singleton, if_pos h]
      have h1 : min m n = n := Nat.min_eq_right (by omega)
      have h2 : min m (n + 1) = n + 1 := Nat.min_eq_right (by omega)
      rw [h1, h2]
      ring
    · rw [List.map_singleton, List.sum_singleton, if_neg h]
      have h1 : min m n = m := Nat.min_eq_left (by omega)
      have h2 : min m (n + 1) = m := Nat.min_eq_left (by omega)
      rw [h1, h2]
      ring

lemma arraySplitSizes_sum (n t : Nat) (ht : 0 < t) :
    (arraySplitSizes n t).sum = n := by
  unfold arraySplitSizes
  rw [range_sum_ite]
  have h1 : n % t < t := Nat.mod_lt _ ht
  rw [Nat.min_eq_left (le_of_lt h1)]
  exact Nat.div_add_mod n t

lemma splitBySizes_flatten : ∀ (sizes : List Nat) (ys : List ℚ),
    (splitBySizes ys sizes).flatten = ys.take sizes.sum := by
  intro sizes
  induction sizes with
  | nil => intro ys; simp [splitBySizes]
  | cons s rest ih =>
    intro ys
    simp only [splitBySizes, List.flatten_cons, List.sum_cons, ih]
    exact (List.take_add ys s rest.sum).symm

lemma flatten_filter_not_isEmpty : ∀ l : List (List ℚ),
    (l.filter fun c => !c.isEmpty).flatten = l.flatten := by
  intro l
  induction l with
  | nil => rfl
  | cons c rest ih =>
    rw [List.filter_cons]
    by_cases h : c.isEmpty
    · obtain rfl : c = [] := List.isEmpty_iff.mp h
      simp [ih]
    · simp only [h, Bool.not_false, if_pos]
      rw [List.flatten_cons, List.flatten_cons, ih]

lemma fixedCountChunks_flatten (ys : List ℚ) (t : Nat) (ht : 0 < t) :
    (fixedCountChunks ys t).flatten = ys := by
  unfold fixedCountChunks
  rw [flatten_filter_not_isEmpty, splitBySizes_flatten,
    arraySplitSizes_sum _ _ ht, List.take_length]

lemma fixedCountChunks_ne_nil (ys : List ℚ) (t : Nat) (c : List ℚ)
    (hc : c ∈ fixedCountChunks ys t) : c ≠ [] := by
  unfold fixedCountChunks at hc
  have := (List.mem_filter.mp hc).2
  intro h
  subst h
  simp at this

/-! ## Head and last lemmas for chunk lists -/

lemma getLast?_eq_getLastI {α : Type} [Inhabited α] (c : List α) (h : c ≠ []) :
    c.getLast? = some c.getLastI := by
  rw [List.getLastI_eq_getLast?, List.getLast?_eq_getLast c h]

lemma headI_mem {α : Type} [Inhabited α] (c : List α) (h : c ≠ []) :
    c.headI ∈ c := by
  cases c with
  | nil => exact absurd rfl h
  | cons a l => simp

lemma getLastI_mem {α : Type} [Inhabited α] (c : List α) (h : c ≠ []) :
    c.getLastI ∈ c := by
  have h1 := getLast?_eq_getLastI c h
  rw [List.getLast?_eq_getLast c h] at h1
  rw [show c.getLastI = c.getLast h from (Option.some_inj.mp h1).symm]
  exact List.getLast_mem h

lemma getLastI_cons_of_ne {α : Type} [Inhabited α] (a : α) (l : List α)
    (h : l ≠ []) : (a :: l).getLastI = l.getLastI := by
  cases l with
  | nil => exact absurd rfl h
  | cons b l' =>
    rw [List.getLastI_eq_getLast?, List.getLastI_eq_getLast?,
      List.getLast?_cons_cons]

lemma getLastI_append_right {α : Type} [Inhabited α] (l m : List α)
    (h : m ≠ []) : (l ++ m).getLastI = m.getLastI := by
  rw [List.getLastI_eq_getLast?, List.getLastI_eq_getLast?,
    List.getLast?_append_of_ne_nil _ h]

lemma headI_append_left {α : Type} [Inhabited α] (l m : List α)
    (h : l ≠ []) : (l ++ m).headI = l.headI := by
  cases l with
  | nil => exact absurd rfl h
  | cons a l' => rfl

lemma chain'_headI_le_getLastI (c : List ℚ) (hne : c ≠ [])
    (hc : c.Chain' (· < ·)) : c.headI ≤ c.getLastI := by
  induction c with
  | nil => exact absurd rfl hne
  | cons a l ih =>
    cases l with
    | nil => exact le_refl _
    | cons b l' =>
      have hab : a < b := (List.chain'_cons.mp hc).1
      have h2 := ih (List.cons_ne_nil _ _) (List.chain'_cons.mp hc).2
      rw [getLastI_cons_of_ne a (b :: l') (List.cons_ne_nil _ _)]
      calc (a :: b :: l').headI = a := rfl
        _ ≤ b := le_of_lt hab
        _ = (b :: l').headI := rfl
        _ ≤ (b :: l').getLastI := h2

lemma chain'_headI_le_mem (c : List ℚ) (hc : c.Chain' (· < ·))
    (v : ℚ) (hv : v ∈ c) : c.headI ≤ v := by
  cases c with
  | nil => simp at hv
  | cons a l =>
    have hp := List.chain'_iff_pairwise.mp hc
    rcases List.mem_cons.mp hv with rfl | h
    · exact le_refl _
    · exact le_of_lt (List.rel_of_pairwise_cons hp h)

lemma chain'_mem_le_getLastI (c : List ℚ) (hc : c.Chain' (· < ·))
    (v : ℚ) (hv : v ∈ c) : v ≤ c.getLastI := by
  induction c with
  | nil => simp at hv
  | cons a l ih =>
    cases l with
    | nil =>
      obtain rfl : v = a := by simpa using hv
      exact le_refl _
    | cons b l' =>
      rw [getLastI_cons_of_ne a (b :: l') (List.cons_ne_nil _ _)]
      rcases List.mem_cons.mp hv with rfl | h
      · have hab : v < b := (List.chain'_cons.mp hc).1
        have := chain'_headI_le_getLastI (b :: l') (List.cons_ne_nil _ _)
          (List.chain'_cons.mp hc).2
        calc v ≤ b := le_of_lt hab
          _ = (b :: l').headI := rfl
          _ ≤ (b :: l').getLastI := this
      · exact ih (List.chain'_cons.mp hc).2 h

lemma chain'_of_mem_chunks : ∀ (chunks : List (List ℚ)),
    chunks.flatten.Chain' (· < ·) → ∀ c ∈ chunks, c.Chain' (· < ·) := by
  intro chunks
  induction chunks with
  | nil => intro _ c hc; simp at hc
  | cons c0 rest ih =>
    intro hj c hc
    rw [List.flatten_cons] at hj
    obtain ⟨h1, h2, _⟩ := List.chain'_append.mp hj
    rcases List.mem_cons.mp hc with rfl | h
    · exact h1
    · exact ih h2 c h

lemma flatten_head?_of_ne (rest : List (List ℚ))
    (hne : ∀ c ∈ rest, c ≠ []) (h : rest ≠ []) :
    rest.flatten.head? = some rest.headI.headI := by
  cases rest with
  | nil => exact absurd rfl h
  | cons c rest' =>
    have hc : c ≠ [] := hne c (by simp)
    cases c with
    | nil => exact absurd rfl hc
    | cons a l => rfl

lemma chunks_bounds_chain : ∀ chunks : List (List ℚ),
    chunks.flatten.Chain' (· < ·) → (∀ c ∈ chunks, c ≠ []) →
    (chunks.map boundsOf).Chain' (fun a b => a.2 < b.1) := by
  intro chunks
  induction chunks with
  | nil => intro _ _; simp
  | cons c rest ih =>
    intro hj hne
    rw [List.flatten_cons] at hj
    obtain ⟨h1, h2, hlink⟩ := List.chain'_append.mp hj
    simp only [List.map_cons]
    rw [List.chain'_cons']
    refine ⟨?_, ih h2 fun x hx => hne x (List.mem_cons_of_mem _ hx)⟩
    intro b hb
    cases rest with
    | nil => simp at hb
    | cons c2 rest2 =>
      have hc : c ≠ [] := hne c (by simp)
      have hc2 : c2 ≠ [] := hne c2 (by simp)
      have hb2 : b = boundsOf c2 := by
        simp only [List.map_cons, List.head?_cons, Option.mem_def,
          Option.some_inj] at hb
        exact hb.symm
      subst hb2
      have hh : (c2 :: rest2).flatten.head? = some c2.headI :=
        flatten_head?_of_ne (c2 :: rest2)
          (fun x hx => hne x (List.mem_cons_of_mem _ hx)) (by simp)
      have hl : c.getLast? = some c.getLastI := getLast?_eq_getLastI c hc
      exact hlink c.getLastI hl c2.headI hh

lemma flatten_headI (chunks : List (List ℚ))
    (hne : ∀ c ∈ chunks, c ≠ []) (h : chunks ≠ []) :
    chunks.flatten.headI = chunks.headI.headI := by
  have h1 := flatten_head?_of_ne chunks hne h
  cases hfl : chunks.flatten with
  | nil => rw [hfl] at h1; simp at h1
  | cons a l =>
    rw [hfl] at h1
    simp only [List.head?_cons, Option.some_inj] at h1
    simp [List.headI, h1]

lemma flatten_getLastI (chunks : List (List ℚ))
    (hne : ∀ c ∈ chunks, c ≠ []) (h : chunks ≠ []) :
    chunks.flatten.getLastI = chunks.getLastI.getLastI := by
  induction chunks with
  | nil => exact absurd rfl h
  | cons c rest ih =>
    cases rest with
    | nil =>
      simp only [List.flatten_cons, List.flatten_nil, List.append_nil]
      rfl
    | cons c2 rest2 =>
      have hne2 : ∀ x ∈ c2 :: rest2, x ≠ [] :=
        fun x hx => hne x (List.mem_cons_of_mem _ hx)
      have hc2 : c2 ≠ [] := hne2 c2 (by simp)
      have hfl_ne : (c2 :: rest2).flatten ≠ [] := by
        rw [List.flatten_cons]
        intro hnil
        exact hc2 (List.append_eq_nil.mp hnil).1
      rw [List.flatten_cons, getLastI_append_right _ _ hfl_ne,
        ih hne2 (by simp),
        getLastI_cons_of_ne (α := List ℚ) c (c2 :: rest2) (by simp)]

/-! ## `pyRound` on integers -/

lemma pyRound_intCast (k : ℤ) : pyRound (k : ℚ) = k := by
  simp only [pyRound, Int.floor_intCast, sub_self]
  norm_num

/-! ## Write-loop lemmas -/

lemma writeTiles_err_acc {D : Type} (f : ℚ × ℚ → Except RunError D)
    (t : ℚ × ℚ) (e : RunError) (ht : f t = .error e) :
    ∀ (pre : List (ℚ × ℚ)) (ds : List D) (post : List (ℚ × ℚ)) (n : Nat)
      (acc : List D), 2 ≤ n → tileSteps f pre = .ok ds →
      writeTiles f (pre ++ t :: post) n (some acc) =
        (some (acc ++ ds), some e) := by
  intro pre
  induction pre with
  | nil =>
    intro ds post n acc hn hds
    obtain rfl : ds = [] := by
      simp only [tileSteps, Except.ok.injEq] at hds
      exact hds.symm
    simp only [List.nil_append, writeTiles, ht, List.append_nil]
  | cons p pre' ih =>
    intro ds post n acc hn hds
    simp only [tileSteps] at hds
    cases hp : f p with
    | error e2 => rw [hp] at hds; simp at hds
    | ok d =>
      rw [hp] at hds
      cases hrest : tileSteps f pre' with
      | error e2 => rw [hrest] at hds; simp at hds
      | ok ds' =>
        rw [hrest] at hds
        simp only [Except.ok.injEq] at hds
        subst hds
        simp only [List.cons_append, writeTiles, hp]
        rw [if_neg (by omega : ¬ n = 1)]
        have step := ih ds' post (n + 1) (acc ++ [d]) (by omega) hrest
        exact step.trans (by simp)

lemma writeTiles_err_start {D : Type} (f : ℚ × ℚ → Except RunError D)
    (t : ℚ × ℚ) (e : RunError) (ht : f t = .error e) :
    ∀ (pre : List (ℚ × ℚ)) (ds : List D) (post : List (ℚ × ℚ)),
      tileSteps f pre = .ok ds →
      writeTiles f (pre ++ t :: post) 1 none =
        (if ds.isEmpty then none else some ds, some e) := by
  intro pre
  cases pre with
  | nil =>
    intro ds post hds
    obtain rfl : ds = [] := by
      simp only [tileSteps, Except.ok.injEq] at hds
      exact hds.symm
    simp only [List.nil_append, writeTiles, ht, List.isEmpty_nil, if_pos]
  | cons p pre' =>
    intro ds post hds
    simp only [tileSteps] at hds
    cases hp : f p with
    | error e2 => rw [hp] at hds; simp at hds
    | ok d =>
      rw [hp] at hds
      cases hrest : tileSteps f pre' with
      | error e2 => rw [hrest] at hds; simp at hds
      | ok ds' =>
        rw [hrest] at hds
        simp only [Except.ok.injEq] at hds
        subst hds
        simp only [List.cons_append, writeTiles, hp]
        have step := writeTiles_err_acc f t e ht pre' ds' post 2 [d]
          (le_refl 2) hrest
        exact step.trans (by simp)

/-! ## Driver unfolding lemmas -/

lemma runMain_pass {D : Type} (tf : ℚ × ℚ → Except String D)
    (aerr : ℚ × ℚ → D → Option String) (y : List ℚ) (a : Args)
    (store0 : Option (List D)) (slices : List (ℚ × ℚ))
    (hpass : store0 = none ∨ a.overwrite = true)
    (hb : build_latitude_slices y a.lat_tiles a.lat_rows_per_tile
      a.lat_step_deg = .ok slices) :
    runMain tf aerr y a store0 = runTiles tf aerr slices a := by
  unfold runMain
  have hcond : ¬ (store0.isSome = true ∧ a.overwrite = false) := by
    rcases hpass with rfl | hov
    · simp
    · simp [hov]
  rw [if_neg hcond, hb]

lemma runMain_err {D : Type} (tf : ℚ × ℚ → Except String D)
    (aerr : ℚ × ℚ → D → Option String) (y : List ℚ) (a : Args)
    (store0 : Option (List D)) (m : String)
    (hpass : store0 = none ∨ a.overwrite = true)
    (hb : build_latitude_slices y a.lat_tiles a.lat_rows_per_tile
      a.lat_step_deg = .error m) :
    runMain tf aerr y a store0 = (none, some (.valueError m)) := by
  unfold runMain
  have hcond : ¬ (store0.isSome = true ∧ a.overwrite = false) := by
    rcases hpass with rfl | hov
    · simp
    · simp [hov]
  rw [if_neg hcond, hb]

lemma runTiles_startIndexErr {D : Type} (tf : ℚ × ℚ → Except String D)
    (aerr : ℚ × ℚ → D → Option String) (slices : List (ℚ × ℚ)) (a : Args)
    (hne : slices.length ≠ 0)
    (hout : a.tile_start_index < 0 ∨
      (slices.length : Int) ≤ a.tile_start_index) :
    runTiles (D := D) tf aerr slices a =
      (none, some (.startIndexError a.tile_start_index slices.length)) := by
  unfold runTiles
  rw [if_neg hne, if_pos hout]

lemma runTiles_loop {D : Type} (tf : ℚ × ℚ → Except String D)
    (aerr : ℚ × ℚ → D → Option String) (slices : List (ℚ × ℚ)) (a : Args)
    (h0 : ¬ a.tile_start_index < 0)
    (h1 : ¬ (slices.length : Int) ≤ a.tile_start_index) :
    runTiles (D := D) tf aerr slices a =
      if (selectionOf slices a).length = 0 then (none, none)
      else writeTiles (tileStep tf aerr) (selectionOf slices a) 1 none := by
  unfold runTiles
  have hne : ¬ slices.length = 0 := by omega
  rw [if_neg hne, if_neg (not_or.mpr ⟨h0, h1⟩)]

lemma getLastI_map_boundsOf (l : List (List ℚ)) (h : l ≠ []) :
    (l.map boundsOf).getLastI = boundsOf l.getLastI := by
  induction l with
  | nil => exact absurd rfl h
  | cons c rest ih =>
    cases rest with
    | nil => rfl
    | cons c2 rest2 =>
      rw [List.map_cons, getLastI_cons_of_ne (boundsOf c) _ (by simp),
        ih (by simp), getLastI_cons_of_ne c (c2 :: rest2) (by simp)]

lemma pyRound_one : pyRound 1 = 1 := by
  simpa using pyRound_intCast 1

lemma pyRound_quarter : pyRound (1/4) = 0 := by
  unfold pyRound
  have hfl : ⌊(1/4 : ℚ)⌋ = 0 := by
    norm_num [Int.floor_eq_zero_iff, Set.mem_Ico]
  rw [hfl]
  norm_num

lemma inferredRows_one_one : inferredRows 1 1 = 1 := by
  unfold inferredRows
  rw [div_one, pyRound_one]
  rfl

lemma inferredRows_quarter_one : inferredRows (1/4) 1 = 1 := by
  unfold inferredRows
  rw [div_one, pyRound_quarter]
  rfl

/-! ## Concrete fixtures for witnesses and counterexamples -/

/-- Transform stub recording each tile's bounds as its dataset. -/
def tfOk : ℚ × ℚ → Except String (ℚ × ℚ) := fun t => .ok t

/-- Transform stub failing on every tile whose lower bound is nonzero. -/
def tfBoom : ℚ × ℚ → Except String (ℚ × ℚ) :=
  fun t => if t.1 = 0 then .ok t else .error "boom"

/-- Append step that never raises. -/
def noAppendErr : ℚ × ℚ → ℚ × ℚ → Option String := fun _ _ => none

/-- First invocation of a split run: tiles 0,1,2 (single-row tiles). -/
def argsFirstRun : Args := ⟨false, 1, 1, none, 0, 3⟩

/-- Second invocation of a split run: tiles from index 3 on. -/
def argsSecondRun : Args := ⟨false, 1, 1, none, 3, 0⟩

/-- One invocation over the whole partition (single-row tiles). -/
def argsFullRun : Args := ⟨false, 1, 1, none, 0, 0⟩

/-- Overwrite flag set together with an out-of-range start index. -/
def argsOverwriteOut : Args := ⟨true, 1, 0, none, 5, 0⟩

/-- Overwrite flag set, default tiling, start index 0. -/
def argsOverwriteTrue : Args := ⟨true, 1, 0, none, 0, 0⟩

/-! ## Claims -/

/-- C1, counterexample: on `Y = [0,1,2,3]` with `rows_per_tile = 2`, adding
`step_deg = 1` changes the partition from `[(0,1),(2,3)]` to four
single-row tiles, so an explicit row count does not take precedence. -/
theorem c1_cex :
    build_latitude_slices [0, 1, 2, 3] 1 2 none = .ok [(0, 1), (2, 3)] ∧
    build_latitude_slices [0, 1, 2, 3] 1 2 (some 1) =
      .ok [(0, 0), (1, 1), (2, 2), (3, 3)] ∧
    build_latitude_slices [0, 1, 2, 3] 1 2 (some 1) ≠
      build_latitude_slices [0, 1, 2, 3] 1 2 none := by
  have h1 : build_latitude_slices [0, 1, 2, 3] 1 2 none =
      .ok [(0, 1), (2, 3)] := by decide
  have hch : |([0, 1, 2, 3] : List ℚ).getD 1 0 -
      ([0, 1, 2, 3] : List ℚ).getD 0 0| = 1 := by
    norm_num [List.getD_cons_succ, List.getD_cons_zero]
  have h2 : build_latitude_slices [0, 1, 2, 3] 1 2 (some 1) =
      .ok [(0, 0), (1, 1), (2, 2), (3, 3)] := by
    rw [build_step_pos [0, 1, 2, 3] 1 2 1 (by norm_num) (by decide)
      (by rw [hch]; norm_num), hch, inferredRows_one_one]
    decide
  refine ⟨h1, h2, ?_⟩
  rw [h1, h2]
  decide

/-- C1, amended: precedence is the other way round — a present `step_deg`
determines the partition regardless of `rows_per_tile` (the result is
identical for any two `rows_per_tile` values), and the explicit row-count
policy of `rows_per_tile = k > 0` applies exactly when `step_deg` is
absent, walking `Y` in windows of `k` rows. -/
theorem c1_amended (y : List ℚ) (tc r1 r2 k : Int) (s : ℚ) (hk : 0 < k) :
    build_latitude_slices y tc r1 (some s) =
      build_latitude_slices y tc r2 (some s) ∧
    build_latitude_slices y tc k none =
      .ok ((windowChunks y k.toNat).map boundsOf) :=
  ⟨build_step_ignores_rows y tc r1 r2 s, build_rows_pos y tc k hk⟩

/-- C1, witness for the amended statement at concrete inputs. -/
theorem c1_witness :
    build_latitude_slices [0, 1, 2, 3] 7 5 (some 1) =
      build_latitude_slices [0, 1, 2, 3] 7 (-2) (some 1) ∧
    build_latitude_slices [0, 1, 2, 3] 7 2 none = .ok [(0, 1), (2, 3)] := by
  have h := c1_amended [0, 1, 2, 3] 7 5 (-2) 2 1 (by decide)
  exact ⟨h.1, by rw [h.2]; decide⟩

/-- C2, counterexample: with `Y = [0,1,2,3,4]` and single-row tiles, a
first run over tiles 0-2 followed by a second run from tile 3 against the
same destination (no overwrite) does not succeed and does not reproduce
the single-run store: the second run fails on the existing destination. -/
theorem c2_cex :
    (runMain tfOk noAppendErr [0, 1, 2, 3, 4] argsSecondRun
        (runMain tfOk noAppendErr [0, 1, 2, 3, 4] argsFirstRun none).1).2 ≠
      none ∧
    (runMain tfOk noAppendErr [0, 1, 2, 3, 4] argsSecondRun
        (runMain tfOk noAppendErr [0, 1, 2, 3, 4] argsFirstRun none).1).1 ≠
      (runMain tfOk noAppendErr [0, 1, 2, 3, 4] argsFullRun none).1 := by
  refine ⟨?_, ?_⟩ <;> decide

/-- C2, amended: re-invoking against the same existing destination with no
overwrite flag is refused up front — the run fails with the
destination-exists error before any tile is revisited or written, leaving
the store exactly as the first run left it; the two-invocation protocol
therefore does not resume and is not equivalent to one full run. -/
theorem c2_amended {D : Type} (tf : ℚ × ℚ → Except String D)
    (aerr : ℚ × ℚ → D → Option String) (y : List ℚ) (a : Args) (s : List D)
    (hov : a.overwrite = false) :
    runMain tf aerr y a (some s) = (some s, some .fileExistsError) := by
  unfold runMain
  rw [if_pos ⟨rfl, hov⟩]

/-- C2, witness for the amended statement at concrete inputs. -/
theorem c2_witness :
    runMain tfOk noAppendErr [0, 1, 2, 3, 4] argsSecondRun
        (some [((0:ℚ), (0:ℚ)), (1, 1), (2, 2)]) =
      (some [((0:ℚ), (0:ℚ)), (1, 1), (2, 2)], some .fileExistsError) :=
  c2_amended tfOk noAppendErr [0, 1, 2, 3, 4] argsSecondRun
    [((0:ℚ), (0:ℚ)), (1, 1), (2, 2)] rfl

/-- C3, counterexample: with the overwrite flag set and an existing
destination, an out-of-range start index (5 on a 1-tile partition of
`Y = [0,1]`) still fails, but only after the destination has been
deleted — the destination is not left untouched. -/
theorem c3_cex :
    runMain tfOk noAppendErr [0, 1] argsOverwriteOut
        (some [((9:ℚ), (9:ℚ))]) =
      (none, some (.startIndexError 5 1)) ∧
    (none : Option (List (ℚ × ℚ))) ≠ some [((9:ℚ), (9:ℚ))] := by
  refine ⟨?_, ?_⟩ <;> decide

/-- C3, amended: an out-of-range start index fails with the configuration
error before any tile is created or appended, and the final destination
state is absent — which preserves a non-existing destination, but means
an existing destination has already been removed by the overwrite policy
(which runs before the validation) when the overwrite flag is set. -/
theorem c3_amended {D : Type} (tf : ℚ × ℚ → Except String D)
    (aerr : ℚ × ℚ → D → Option String) (y : List ℚ) (a : Args)
    (store0 : Option (List D)) (slices : List (ℚ × ℚ))
    (hpass : store0 = none ∨ a.overwrite = true)
    (hb : build_latitude_slices y a.lat_tiles a.lat_rows_per_tile
      a.lat_step_deg = .ok slices)
    (hne : slices.length ≠ 0)
    (hout : a.tile_start_index < 0 ∨
      (slices.length : Int) ≤ a.tile_start_index) :
    runMain tf aerr y a store0 =
      (none, some (.startIndexError a.tile_start_index slices.length)) := by
  rw [runMain_pass tf aerr y a store0 slices hpass hb]
  exact runTiles_startIndexErr tf aerr slices a hne hout

/-- C3, witness for the amended statement at concrete inputs. -/
theorem c3_witness :
    runMain tfOk noAppendErr [0, 1] argsOverwriteOut
        (some [((9:ℚ), (9:ℚ))]) =
      (none, some (.startIndexError 5 1)) := by
  have h := c3_amended tfOk noAppendErr [0, 1] argsOverwriteOut
      (some [((9:ℚ), (9:ℚ))]) [(0, 1)] (Or.inr rfl) (by decide) (by decide)
      (by decide)
  exact h

/-- C4: if the per-tile step (transform or append) fails on some tile of
the selection, the run aborts with that error and the destination
afterwards holds exactly the datasets of the tiles completed before the
failing one — nothing from the failing tile or any later tile (an empty
completed prefix leaves the destination non-existent, since the first
tile is the one that creates the store). -/
theorem c4_tile_failure_atomic {D : Type} (tf : ℚ × ℚ → Except String D)
    (aerr : ℚ × ℚ → D → Option String) (y : List ℚ) (a : Args)
    (slices pre post : List (ℚ × ℚ)) (t : ℚ × ℚ) (ds : List D)
    (e : RunError)
    (hb : build_latitude_slices y a.lat_tiles a.lat_rows_per_tile
      a.lat_step_deg = .ok slices)
    (h0 : ¬ a.tile_start_index < 0)
    (h1 : ¬ (slices.length : Int) ≤ a.tile_start_index)
    (hsel : selectionOf slices a = pre ++ t :: post)
    (hpre : tileSteps (tileStep tf aerr) pre = .ok ds)
    (ht : tileStep tf aerr t = .error e) :
    runMain tf aerr y a none =
      (if ds.isEmpty then none else some ds, some e) := by
  rw [runMain_pass tf aerr y a none slices (Or.inl rfl) hb,
    runTiles_loop tf aerr slices a h0 h1, hsel]
  rw [if_neg (by simp)]
  exact writeTiles_err_start (tileStep tf aerr) t e ht pre ds post hpre

/-- C4, witness: on `Y = [0,1]` with single-row tiles, a transform that
fails on the second tile leaves exactly the first tile in the store. -/
theorem c4_witness :
    runMain tfBoom noAppendErr [0, 1] argsFullRun none =
      (some [((0:ℚ), (0:ℚ))], some (.transformError "boom")) := by
  have h := c4_tile_failure_atomic tfBoom noAppendErr [0, 1] argsFullRun
      [(0, 0), (1, 1)] [(0, 0)] [] (1, 1) [((0:ℚ), (0:ℚ))]
      (.transformError "boom") (by decide) (by decide) (by decide)
      (by decide) (by decide) (by decide)
  simpa using h

/-- C5: under the fixed-tile-count policy (no explicit row count, no
degrees-per-tile) on a strictly ascending `Y` (the grid's data-model
invariant) and `tile_count ≥ 1`, the returned tiles come from the
non-empty `np.array_split` chunks (empty chunks dropped), whose
concatenation is exactly `Y` (no gaps, no overlaps, full coverage); each
tile's bounds are ordered, consecutive tiles are strictly increasing, the
first lower bound is the observed minimum of `Y` and the last upper bound
the observed maximum; `tile_count < 1` is a configuration error. -/
theorem c5_fixed_count_correct (y : List ℚ) (tc r : Int) (hy : y ≠ [])
    (hsort : y.Chain' (· < ·)) (htc : 1 ≤ tc) (hr : r ≤ 0) :
    build_latitude_slices y tc r none =
      .ok ((fixedCountChunks y tc.toNat).map boundsOf) ∧
    (fixedCountChunks y tc.toNat).flatten = y ∧
    (∀ c ∈ fixedCountChunks y tc.toNat, c ≠ []) ∧
    (∀ c ∈ fixedCountChunks y tc.toNat, c.headI ≤ c.getLastI) ∧
    ((fixedCountChunks y tc.toNat).map boundsOf).Chain'
      (fun a b => a.2 < b.1) ∧
    ((fixedCountChunks y tc.toNat).map boundsOf).headI.1 = y.headI ∧
    ((fixedCountChunks y tc.toNat).map boundsOf).getLastI.2 = y.getLastI ∧
    (∀ v ∈ y, y.headI ≤ v ∧ v ≤ y.getLastI) ∧
    ∀ tc2 : Int, tc2 < 1 →
      build_latitude_slices y tc2 r none =
        .error "lat-tiles must be >= 1" := by
  have ht' : 0 < tc.toNat := by omega
  have hfl : (fixedCountChunks y tc.toNat).flatten = y :=
    fixedCountChunks_flatten y tc.toNat ht'
  have hne : ∀ c ∈ fixedCountChunks y tc.toNat, c ≠ [] :=
    fun c hc => fixedCountChunks_ne_nil y tc.toNat c hc
  have hchain : (fixedCountChunks y tc.toNat).flatten.Chain' (· < ·) := by
    rw [hfl]; exact hsort
  have hchunks_ne : fixedCountChunks y tc.toNat ≠ [] := by
    intro h
    rw [h] at hfl
    exact hy hfl.symm
  refine ⟨build_fixed y tc r hr htc, hfl, hne, ?_, ?_, ?_, ?_, ?_, ?_⟩
  · intro c hc
    exact chain'_headI_le_getLastI c (hne c hc)
      (chain'_of_mem_chunks _ hchain c hc)
  · exact chunks_bounds_chain _ hchain hne
  · obtain ⟨c, rest, hcr⟩ : ∃ c rest,
        fixedCountChunks y tc.toNat = c :: rest := by
      cases hc : fixedCountChunks y tc.toNat with
      | nil => exact absurd hc hchunks_ne
      | cons c rest => exact ⟨c, rest, rfl⟩
    rw [hcr] at hfl hne ⊢
    have hhead : y.headI = c.headI := by
      rw [← hfl]
      exact flatten_headI (c :: rest) hne (by simp)
    simp [boundsOf, hhead]
  · rw [getLastI_map_boundsOf _ hchunks_ne]
    show (fixedCountChunks y tc.toNat).getLastI.getLastI = y.getLastI
    rw [← flatten_getLastI _ hne hchunks_ne, hfl]
  · intro v hv
    exact ⟨chain'_headI_le_mem y hsort v hv,
      chain'_mem_le_getLastI y hsort v hv⟩
  · intro tc2 h2
    exact build_fixed_err y tc2 r hy hr h2

/-- C5, witness at the spec's own scenario: `Y = [5..10]`, two tiles. -/
theorem c5_witness :
    build_latitude_slices [5, 6, 7, 8, 9, 10] 2 0 none =
      .ok [(5, 7), (8, 10)] ∧
    (fixedCountChunks [5, 6, 7, 8, 9, 10] (2 : Int).toNat).flatten =
      [5, 6, 7, 8, 9, 10] := by
  have h := c5_fixed_count_correct [5, 6, 7, 8, 9, 10] 2 0 (by decide)
      (by norm_num [List.chain'_cons]) (by decide) (by decide)
  exact ⟨by rw [h.1]; decide, h.2.1⟩

/-- C6: with `rows_per_tile = k > 0` and no `step_deg`, the tiles are the
bounds of the fixed-size windows of `k` rows: every window except
possibly the last has exactly `k` rows, the window row counts sum to
`len(Y)`, and no window is empty (each tile's bounds being the window's
first and last value by `boundsOf`). -/
theorem c6_rows_accounting (y : List ℚ) (tc k : Int) (hk : 0 < k) :
    build_latitude_slices y tc k none =
      .ok ((windowChunks y k.toNat).map boundsOf) ∧
    ((windowChunks y k.toNat).map List.length).sum = y.length ∧
    (∀ i, i + 1 < (windowChunks y k.toNat).length →
      ((windowChunks y k.toNat).getD i []).length = k.toNat) ∧
    ∀ c ∈ windowChunks y k.toNat, c ≠ [] := by
  have hk' : 0 < k.toNat := by omega
  exact ⟨build_rows_pos y tc k hk,
    windowChunks_sum_length y k.toNat hk',
    fun i hi => windowChunks_length_getD y k.toNat i hk' hi,
    fun c hc => windowChunks_ne_nil y c k.toNat hk' hc⟩

/-- C6, witness at the spec's own scenario: `rows_per_tile = 2`. -/
theorem c6_witness :
    build_latitude_slices [5, 6, 7, 8, 9, 10] 9 2 none =
      .ok [(5, 6), (7, 8), (9, 10)] ∧
    ((windowChunks [5, 6, 7, 8, 9, 10] (2 : Int).toNat).map
      List.length).sum = 6 := by
  have h := c6_rows_accounting [5, 6, 7, 8, 9, 10] 9 2 (by decide)
  exact ⟨by rw [h.1]; decide, by rw [h.2.1]; decide⟩

/-- C7: on a uniformly spaced `Y` with spacing `d > 0`, `step_deg = k*d`
(integer `k ≥ 1`, no explicit row count) produces the same partition as
`rows_per_tile = k`; a single-row `Y` under the `step_deg` policy is one
row per tile; non-positive `step_deg` is a configuration error. -/
theorem c7_step_rows_agreement (y : List ℚ) (tc r : Int) (d : ℚ) (k : Int)
    (hd : 0 < d) (hk : 1 ≤ k) (hr : r ≤ 0)
    (huni : y.Chain' (fun p q => q - p = d)) :
    build_latitude_slices y tc r (some ((k : ℚ) * d)) =
      build_latitude_slices y tc k none ∧
    (y.length = 1 →
      build_latitude_slices y tc r (some ((k : ℚ) * d)) =
        .ok [(y.headI, y.headI)]) ∧
    ∀ s : ℚ, s ≤ 0 → y ≠ [] →
      build_latitude_slices y tc r (some s) =
        .error "lat-step-deg must be > 0" := by
  have hk1 : (1 : ℚ) ≤ (k : ℚ) := by exact_mod_cast hk
  have hs : 0 < (k : ℚ) * d := by nlinarith
  refine ⟨?_, ?_, fun s hsle hyne => build_step_nonpos y tc r s hyne hsle⟩
  · rcases y with _ | ⟨a, _ | ⟨b, ys0⟩⟩
    · rw [build_nil, build_nil]
    · rw [build_step_single a tc r _ hs, build_rows_pos [a] tc k (by omega),
        windowChunks_singleton a k.toNat (by omega)]
      rfl
    · have hba : b - a = d := (List.chain'_cons.mp huni).1
      have hch : |(a :: b :: ys0).getD 1 0 - (a :: b :: ys0).getD 0 0| =
          d := by
        show |b - a| = d
        rw [hba]
        exact abs_of_pos hd
      have hchne : |(a :: b :: ys0).getD 1 0 - (a :: b :: ys0).getD 0 0| ≠
          0 := by
        rw [hch]
        exact ne_of_gt hd
      rw [build_step_pos (a :: b :: ys0) tc r _ hs
        (by simp only [List.length_cons]; omega) hchne]
      rw [build_rows_pos _ tc k (by omega)]
      rw [hch]
      have hrows : inferredRows ((k : ℚ) * d) d = k.toNat := by
        unfold inferredRows
        rw [mul_div_cancel_right₀ _ (ne_of_gt hd), pyRound_intCast]
        omega
      rw [hrows]
  · intro h1
    obtain ⟨a, rfl⟩ : ∃ a, y = [a] := List.length_eq_one.mp h1
    exact build_step_single a tc r _ hs

/-- C7, witness: `Y = [0,1,2,3]`, spacing 1, `k = 2`. -/
theorem c7_witness :
    build_latitude_slices [0, 1, 2, 3] 3 0 (some (((2 : Int) : ℚ) * 1)) =
      build_latitude_slices [0, 1, 2, 3] 3 2 none := by
  have h := c7_step_rows_agreement [0, 1, 2, 3] 3 0 1 2 (by decide)
      (by decide) (by decide) (by norm_num [List.chain'_cons])
  exact h.1

/-- C8, counterexample: on an empty `Y` with an existing destination and
no overwrite flag, the run does not exit successfully — it fails with the
destination-exists error (the existence policy runs before the
empty-partition check). -/
theorem c8_cex :
    runMain tfOk noAppendErr ([] : List ℚ) argsFirstRun
        (some [((9:ℚ), (9:ℚ))]) =
      (some [((9:ℚ), (9:ℚ))], some .fileExistsError) ∧
    some RunError.fileExistsError ≠ (none : Option RunError) := by
  refine ⟨?_, ?_⟩ <;> decide

/-- C8, amended: an empty `Y` (empty tile partition) is reported, not an
error, and causes no tile write — provided the destination does not
already exist; if it does, the pre-existing-destination policy applies
first: without overwrite the run fails, and with overwrite the existing
destination is deleted (so it is not left exactly as before) before the
run ends successfully with no store created. -/
theorem c8_amended {D : Type} (tf : ℚ × ℚ → Except String D)
    (aerr : ℚ × ℚ → D → Option String) (a : Args) (s : List D) :
    runMain tf aerr ([] : List ℚ) a none = (none, none) ∧
    (a.overwrite = true →
      runMain tf aerr ([] : List ℚ) a (some s) = (none, none)) := by
  constructor
  · rw [runMain_pass tf aerr [] a none [] (Or.inl rfl) (build_nil _ _ _)]
    rfl
  · intro hov
    rw [runMain_pass tf aerr [] a (some s) [] (Or.inr hov) (build_nil _ _ _)]
    rfl

/-- C8, witness for the amended statement at concrete inputs. -/
theorem c8_witness :
    runMain tfOk noAppendErr ([] : List ℚ) argsOverwriteTrue
        (some [((9:ℚ), (9:ℚ))]) = (none, none) ∧
    runMain tfOk noAppendErr ([] : List ℚ) argsFullRun none =
      (none, none) :=
  ⟨(c8_amended tfOk noAppendErr argsOverwriteTrue [((9:ℚ), (9:ℚ))]).2 rfl,
   (c8_amended tfOk noAppendErr argsFullRun [((9:ℚ), (9:ℚ))]).1⟩

/-- C9: a non-positive `rows_per_tile` with no `step_deg` is not an
error — the partition is the same as with the default `rows_per_tile = 0`
and, for `tile_count ≥ 1`, falls through to the fixed tile-count policy. -/
theorem c9_nonpositive_rows (y : List ℚ) (tc r : Int) (hr : r ≤ 0) :
    build_latitude_slices y tc r none =
      build_latitude_slices y tc 0 none ∧
    (1 ≤ tc → build_latitude_slices y tc r none =
      .ok ((fixedCountChunks y tc.toNat).map boundsOf)) := by
  constructor
  · have h1 : ¬ 0 < r := by omega
    by_cases hy : y.length = 0
    · simp [build_latitude_slices, hy]
    · simp [build_latitude_slices, effectiveRowsOf, hy, h1]
  · exact fun htc => build_fixed y tc r hr htc

/-- C9, witness: `rows_per_tile = -4` behaves as the fixed-count default. -/
theorem c9_witness :
    build_latitude_slices [5, 6, 7, 8, 9, 10] 2 (-4) none =
      build_latitude_slices [5, 6, 7, 8, 9, 10] 2 0 none ∧
    build_latitude_slices [5, 6, 7, 8, 9, 10] 2 (-4) none =
      .ok [(5, 7), (8, 10)] := by
  have h := c9_nonpositive_rows [5, 6, 7, 8, 9, 10] 2 (-4) (by decide)
  exact ⟨h.1, by rw [h.2 (by decide)]; decide⟩

/-- C10: the degrees-per-tile row count is clamped to at least one row
(`max 1 (round (step / cell_height))`), so for every positive `step_deg`
(including one below half the cell spacing) the window walk uses a
positive step: it always advances, its windows are all non-empty, and
they cover `Y` exactly. -/
theorem c10_inferred_rows_clamped :
    (∀ s h : ℚ, 1 ≤ inferredRows s h) ∧
    (∀ (ys : List ℚ) (k : Nat), 0 < k →
      (windowChunks ys k).flatten = ys ∧
      ∀ c ∈ windowChunks ys k, c ≠ []) ∧
    ∀ (y : List ℚ) (tc r : Int) (s : ℚ), 0 < s → 2 ≤ y.length →
      |y.getD 1 0 - y.getD 0 0| ≠ 0 →
      build_latitude_slices y tc r (some s) =
        .ok ((windowChunks y
          (inferredRows s |y.getD 1 0 - y.getD 0 0|)).map boundsOf) :=
  ⟨fun s h => one_le_inferredRows s h,
   fun ys k hk => ⟨windowChunks_join ys k hk,
     fun c hc => windowChunks_ne_nil ys c k hk hc⟩,
   fun y tc r s hs hy hch => build_step_pos y tc r s hs hy hch⟩

/-- C10, witness: a `step_deg` of a quarter cell still yields one-row
windows. -/
theorem c10_witness :
    1 ≤ inferredRows (1/4) 1 ∧
    build_latitude_slices [0, 1] 1 0 (some (1/4)) =
      .ok [(0, 0), (1, 1)] := by
  have h := c10_inferred_rows_clamped
  have hch : |([0, 1] : List ℚ).getD 1 0 - ([0, 1] : List ℚ).getD 0 0| =
      1 := by
    norm_num [List.getD_cons_succ, List.getD_cons_zero]
  refine ⟨h.1 (1/4) 1, ?_⟩
  rw [h.2.2 [0, 1] 1 0 (1/4) (by norm_num) (by decide)
    (by rw [hch]; norm_num), hch, inferredRows_quarter_one]
  decide

end GreenCondor
